import Mathlib

/-!
Verification of the application-queue core of the golet repository.

The data model and the operations below are shallow embeddings of the
TypeScript API-client functions (`submitApplicationWithDocuments`,
`updateApplicationStatus`, `getListingApplications`, `checkUserApplication`)
and of the SQL migration functions (`get_next_application_position`,
`add_application_to_queue`, `reorder_application_positions`,
`fix_application_positions`).  Database tables are embedded as lists of
records; timestamps and identifiers are natural numbers; fallible
operations return an `Except`-style result paired with the resulting
table state.
-/

namespace Golet

/-- Application status column: `pending`, `accepted`, `rejected`, `withdrawn`. -/
inductive Status where
  | pending
  | accepted
  | rejected
  | withdrawn
deriving DecidableEq, Repr

/-- An entry of the `shared_documents` list: opaque document descriptor
(storage filename, document-type tag, display name, optional original
filename / mime type / size), stored and forwarded verbatim by the core. -/
structure SharedDoc where
  filename : String
  documentType : String
  customName : String
  originalFilename : Option String
  mimeType : Option String
  size : Option Nat
deriving DecidableEq, Repr

/-- A row of the `applications` table. -/
structure Application where
  id : Nat
  listingId : Nat
  userId : Nat
  position : Nat
  status : Status
  notes : Option String
  sharedDocuments : List SharedDoc
  appliedAt : Nat
  createdAt : Nat
  reviewedAt : Option Nat
  reviewNotes : Option String
deriving DecidableEq, Repr

/-- A row of the `listings` table, reduced to the fields the queue core
reads: the listing id and its owner (`user_id`). -/
structure Listing where
  id : Nat
  userId : Nat
deriving DecidableEq, Repr

/-- `SELECT * FROM applications WHERE listing_id = lid`. -/
def appsOf (db : List Application) (lid : Nat) : List Application :=
  db.filter (fun a => a.listingId == lid)

/-- `SELECT * FROM applications WHERE listing_id = lid AND user_id = uid`:
the rows for one (listing, applicant) pair. -/
def pairRows (db : List Application) (lid uid : Nat) : List Application :=
  db.filter (fun a => a.listingId == lid && a.userId == uid)

/-- `SELECT COALESCE(MAX(position), 0) FROM applications WHERE listing_id = lid`,
which is also what the client-side descending-order/limit-1 query of
`submitApplicationWithDocuments` computes (`maxPositionData?.[0]?.position || 0`). -/
def maxPosition (db : List Application) (lid : Nat) : Nat :=
  ((appsOf db lid).map (fun a => a.position)).foldr max 0

/-- `EXISTS (SELECT 1 FROM applications WHERE listing_id = lid AND position = p)`. -/
def positionTaken (db : List Application) (lid p : Nat) : Bool :=
  (appsOf db lid).any (fun a => a.position == p)

/-- The `position` values of the currently `pending` applications of a listing. -/
def pendingPositions (db : List Application) (lid : Nat) : List Nat :=
  ((appsOf db lid).filter (fun a => a.status == .pending)).map (fun a => a.position)

/-- Whether two simultaneously pending applications of `lid` share a position. -/
def hasDuplicatePendingPositions (db : List Application) (lid : Nat) : Bool :=
  (pendingPositions db lid).any (fun p => 2 ≤ (pendingPositions db lid).count p)

/-! ### Submission orchestrator (`submitApplicationWithDocuments`) -/

/-- JavaScript's falsy test `!message.trim()`: the string is empty or
consists of whitespace only. -/
def isBlank (s : String) : Bool :=
  s.data.all (fun c => c.isWhitespace)

instance {ε α : Type} [DecidableEq ε] [DecidableEq α] : DecidableEq (Except ε α) :=
  fun x y =>
    match x, y with
    | .ok a, .ok b => if h : a = b then .isTrue (by rw [h]) else .isFalse (by simp [h])
    | .error e, .error f => if h : e = f then .isTrue (by rw [h]) else .isFalse (by simp [h])
    | .ok _, .error _ => .isFalse (by simp)
    | .error _, .ok _ => .isFalse (by simp)

/-- Error kinds surfaced by `submitApplicationWithDocuments`. -/
inductive SubmitError where
  | messageRequired
  | notAuthenticated
  | duplicatePending
deriving DecidableEq, Repr

/-- The success payload of `submitApplicationWithDocuments`. -/
structure SubmitResult where
  applicationId : Nat
  sharedDocumentsCount : Nat
  isUpdate : Bool
deriving DecidableEq, Repr

/-- Shallow embedding of `submitApplicationWithDocuments`.

Faithful to the TypeScript source:
* empty (after trim) application message → throw `Application message is required`;
* missing user → throw `User not authenticated`;
* the existing-application lookup uses `.single()`, whose `PGRST116` error
  (zero rows or more than one row) is swallowed, so `existingApplication`
  is non-null exactly when the pair has exactly one row;
* an existing `pending` row → throw the duplicate-pending error, no write;
* an existing non-pending row → `UPDATE` it (status, notes, shared_documents,
  applied_at) keyed by id — the stored `position` is not touched;
* otherwise `INSERT` a fresh row at `max position + 1` for the listing.

`now` stands for `new Date().toISOString()` / the row-creation default, and
`newId` for the id the store assigns to an inserted row. -/
def submitApplicationWithDocuments (db : List Application) (lid : Nat)
    (message : String) (docs : List SharedDoc) (user : Option Nat)
    (now newId : Nat) : Except SubmitError SubmitResult × List Application :=
  if isBlank message then (.error .messageRequired, db)
  else
    match user with
    | none => (.error .notAuthenticated, db)
    | some uid =>
      match pairRows db lid uid with
      | [a] =>
        if a.status == .pending then (.error .duplicatePending, db)
        else
          (.ok ⟨a.id, docs.length, true⟩,
           db.map (fun b =>
             if b.id == a.id then
               { b with status := .pending, notes := some message,
                        sharedDocuments := docs, appliedAt := now }
             else b))
      | _ =>
        let nextPosition := maxPosition db lid + 1
        (.ok ⟨newId, docs.length, false⟩,
         db ++ [{ id := newId, listingId := lid, userId := uid,
                  position := nextPosition, status := .pending,
                  notes := some message, sharedDocuments := docs,
                  appliedAt := now, createdAt := now,
                  reviewedAt := none, reviewNotes := none }])

/-! ### `checkUserApplication` -/

/-- The value returned by `checkUserApplication`. -/
structure CheckResult where
  hasApplied : Bool
  application : Option Application
deriving DecidableEq, Repr

/-- Shallow embedding of `checkUserApplication`.

Faithful to the TypeScript source: with no user it returns
`{ hasApplied: false, application: null }`; otherwise it queries the rows of
the (listing, user) pair with `.maybeSingle()`, which yields `null` on zero
rows and an error on more than one row; the error branch (and the outer
`catch`) returns `{ hasApplied: false, application: null }` instead of
throwing, and on a single row it returns `{ hasApplied: !!data, application: data }`. -/
def checkUserApplication (db : List Application) (lid : Nat)
    (user : Option Nat) : CheckResult :=
  match user with
  | none => ⟨false, none⟩
  | some uid =>
    match pairRows db lid uid with
    | [] => ⟨false, none⟩
    | [a] => ⟨true, some a⟩
    | _ => ⟨false, none⟩

/-! ### Status transition (`updateApplicationStatus` and its RPC) -/

/-- Error kinds of the status-transition path. -/
inductive TransitionError where
  | invalidStatus
  | notAuthenticated
  | notFound
  | invalidTransition
  | unauthorized
deriving DecidableEq, Repr

/-- The status values accepted by `updateApplicationStatus`. -/
def allowedStatuses : List String := ["accepted", "rejected", "withdrawn"]

/-- Modelled from the spec: the SQL function `update_application_status`
(invoked through `supabase.rpc` in `updateApplicationStatus`) is not among
the source files; this definition follows section 4.3 of the spec.  The
application must currently be `pending` (else `InvalidStatusTransition`,
no mutation); `accepted`/`rejected` are listing-owner transitions that also
write `reviewedAt`/`reviewNotes`; `withdrawn` is an applicant transition;
a wrong actor yields `Unauthorized` with no mutation; any other target
status is an invalid transition. -/
def update_application_status (db : List Application) (listings : List Listing)
    (actor appId : Nat) (newStatus : String) (reviewNotes : Option String)
    (now : Nat) : Except TransitionError Bool × List Application :=
  match db.find? (fun a => a.id == appId) with
  | none => (.error .notFound, db)
  | some a =>
    match listings.find? (fun l => l.id == a.listingId) with
    | none => (.error .notFound, db)
    | some l =>
      if a.status != .pending then (.error .invalidTransition, db)
      else if newStatus == "accepted" || newStatus == "rejected" then
        if actor != l.userId then (.error .unauthorized, db)
        else
          (.ok true,
           db.map (fun b =>
             if b.id == appId then
               { b with status := if newStatus == "accepted" then .accepted else .rejected,
                        reviewedAt := some now, reviewNotes := reviewNotes }
             else b))
      else if newStatus == "withdrawn" then
        if actor != a.userId then (.error .unauthorized, db)
        else
          (.ok true,
           db.map (fun b => if b.id == appId then { b with status := .withdrawn } else b))
      else (.error .invalidTransition, db)

/-- Shallow embedding of the TypeScript `updateApplicationStatus`: it
rejects any target status outside `accepted`/`rejected`/`withdrawn`
(including the falsy empty string) before any call to the RPC, then
requires an authenticated user, then dispatches to the RPC. -/
def updateApplicationStatus (db : List Application) (listings : List Listing)
    (appId : Nat) (status : String) (notes : Option String)
    (user : Option Nat) (now : Nat) : Except TransitionError Bool × List Application :=
  if status == "" || !(allowedStatuses.contains status) then (.error .invalidStatus, db)
  else
    match user with
    | none => (.error .notAuthenticated, db)
    | some actor => update_application_status db listings actor appId status notes now

/-! ### Listing-applications query (`getListingApplications`) -/

/-- Error kinds of `getListingApplications`. -/
inductive QueryError where
  | notAuthenticated
  | notFound
  | unauthorized
deriving DecidableEq, Repr

/-- Insert an element into a sorted list, after any elements that compare
less-or-equal (keeping ties in their original order). -/
def orderedInsert {α : Type} (le : α → α → Bool) (a : α) : List α → List α
  | [] => [a]
  | b :: l => if le a b then a :: b :: l else b :: orderedInsert le a l

/-- Stable insertion sort by a boolean comparator; the embedding of the
store's `ORDER BY`. -/
def insertionSort {α : Type} (le : α → α → Bool) : List α → List α
  | [] => []
  | a :: l => orderedInsert le a (insertionSort le l)

/-- `ORDER BY position ASC` comparator. -/
def posLe (a b : Application) : Bool :=
  decide (a.position ≤ b.position)

/-- Shallow embedding of `getListingApplications`: requires a user, loads
the listing (`.single()`, an error when absent), requires the user to own
the listing, then returns the listing's applications ordered by `position`
ascending.  The operation performs no write, which the embedding renders
by returning the table unchanged. -/
def getListingApplications (db : List Application) (listings : List Listing)
    (lid : Nat) (user : Option Nat) :
    Except QueryError (List Application) × List Application :=
  match user with
  | none => (.error .notAuthenticated, db)
  | some uid =>
    match listings.find? (fun l => l.id == lid) with
    | none => (.error .notFound, db)
    | some l =>
      if l.userId != uid then (.error .unauthorized, db)
      else (.ok (insertionSort posLe (appsOf db lid)), db)

/-! ### Position allocator (`get_next_application_position`, `add_application_to_queue`)

The SQL allocator is a read-then-insert-with-retry loop.  To make its
retry branch meaningful in a sequential embedding, each insert attempt is
exposed to an interference schedule `interf : Nat → List Application` that
lists the rows committed by concurrent transactions between the attempt's
max-position read and its `INSERT`; the insert raises a `unique_violation`
on the `(listing_id, position)` constraint exactly when the proposed
position is already taken among the rows visible at commit time. -/

/-- The `WHILE EXISTS ... LOOP next_position := next_position + 1` climb of
`get_next_application_position`, fuelled (it exits at once on a free
position). -/
def bumpPosition (db : List Application) (lid : Nat) : Nat → Nat → Nat
  | 0, p => p
  | fuel + 1, p => if positionTaken db lid p then bumpPosition db lid fuel (p + 1) else p

/-- Shallow embedding of the SQL `get_next_application_position`:
`COALESCE(MAX(position), 0) + 1`, then climb past any taken position. -/
def get_next_application_position (db : List Application) (lid : Nat) : Nat :=
  bumpPosition db lid (db.length + 1) (maxPosition db lid + 1)

/-- Outcome of the allocator loop. -/
inductive AllocResult where
  | ok (a : Application)
  | exhausted
deriving DecidableEq, Repr

/-- Final state of an allocator run: its result, the committed table
(including interference rows), and how many insert attempts were made. -/
structure AllocOutcome where
  res : AllocResult
  db : List Application
  attempts : Nat
deriving DecidableEq, Repr

/-- The row inserted by `add_application_to_queue`: `INSERT INTO applications
(listing_id, user_id, position, notes, status, applied_at) VALUES
(..., 'pending', NOW())`, remaining columns defaulted. -/
def mkPendingApp (newId lid uid p : Nat) (notes : Option String) (now : Nat) : Application :=
  { id := newId, listingId := lid, userId := uid, position := p,
    status := .pending, notes := notes, sharedDocuments := [],
    appliedAt := now, createdAt := now, reviewedAt := none, reviewNotes := none }

/-- The retry loop body of `add_application_to_queue` (the migration with
`max_attempts := 20`): increment `attempt_count`, read the next position
from the current snapshot, and try the insert against the rows committed
by then; on a `unique_violation` of the position constraint either raise
(budget spent) or loop on the enlarged snapshot. -/
def allocLoop (interf : Nat → List Application) (lid uid : Nat)
    (notes : Option String) (newId now maxAttempts : Nat) :
    Nat → Nat → List Application → AllocOutcome
  | 0, k, db => ⟨.exhausted, db, k⟩
  | fuel + 1, k, db =>
    let kc := k + 1
    let p := get_next_application_position db lid
    let committed := db ++ interf kc
    if positionTaken committed lid p then
      if maxAttempts ≤ kc then ⟨.exhausted, committed, kc⟩
      else allocLoop interf lid uid notes newId now maxAttempts fuel kc committed
    else
      ⟨.ok (mkPendingApp newId lid uid p notes now),
       committed ++ [mkPendingApp newId lid uid p notes now], kc⟩

/-- Shallow embedding of the SQL `add_application_to_queue` with the retry
discipline and `max_attempts = 20` of the position-conflict migration. -/
def add_application_to_queue (interf : Nat → List Application) (lid uid : Nat)
    (notes : Option String) (newId now : Nat) (db : List Application) : AllocOutcome :=
  allocLoop interf lid uid notes newId now 20 20 0 db

/-- The interference rows committed during attempts `k+1 .. k+m`. -/
def interfCat (interf : Nat → List Application) (k : Nat) : Nat → List Application
  | 0 => []
  | m + 1 => interf (k + 1) ++ interfCat interf (k + 1) m

/-! ### Queue reconcilers (`reorder_application_positions`, `fix_application_positions`)

Both SQL functions rank the rows in scope with
`ROW_NUMBER() OVER (ORDER BY applied_at, created_at)` and overwrite each
row's `position` with its rank, joining back on `id`.  The embedding
projects the rows in scope to `(id, applied_at, created_at)` triples,
ranks them with a stable insertion sort on `(applied_at, created_at)`
(ties beyond `created_at` keep table order, one deterministic refinement
of `ROW_NUMBER`), and rewrites each row in scope to the rank of its id. -/

/-- Non-strict lexicographic order on `(applied_at, created_at)` pairs. -/
def pairLe (x y : Nat × Nat) : Bool :=
  decide (x.1 < y.1) || (decide (x.1 = y.1) && decide (x.2 ≤ y.2))

/-- Strict lexicographic order on `(applied_at, created_at)` pairs. -/
def pairLt (x y : Nat × Nat) : Bool :=
  decide (x.1 < y.1) || (decide (x.1 = y.1) && decide (x.2 < y.2))

/-- `ORDER BY applied_at, created_at` on `(id, applied_at, created_at)` triples. -/
def tripleLe (x y : Nat × Nat × Nat) : Bool :=
  pairLe x.2 y.2

/-- The `(id, applied_at, created_at)` projection of a row. -/
def keyTriple (a : Application) : Nat × Nat × Nat :=
  (a.id, a.appliedAt, a.createdAt)

/-- The sort key `(applied_at, created_at)` of a row. -/
def appKey (a : Application) : Nat × Nat :=
  (a.appliedAt, a.createdAt)

/-- The triples of all applications of the listing (scope of
`reorder_application_positions`). -/
def keyedApps (db : List Application) (lid : Nat) : List (Nat × Nat × Nat) :=
  (appsOf db lid).map keyTriple

/-- The triples of the pending applications of the listing (scope of
`fix_application_positions`). -/
def keyedPendingApps (db : List Application) (lid : Nat) : List (Nat × Nat × Nat) :=
  ((appsOf db lid).filter (fun a => a.status == .pending)).map keyTriple

/-- `ROW_NUMBER` of the row with id `k` in the ranked scope, if any. -/
def rankOfId (sorted : List (Nat × Nat × Nat)) (k : Nat) : Option Nat :=
  (sorted.findIdx? (fun x => x.1 == k)).map (fun i => i + 1)

/-- The per-row effect of `reorder_application_positions`: rows of the
listing take the rank of their id; other rows are untouched. -/
def reorderUpdate (sorted : List (Nat × Nat × Nat)) (lid : Nat)
    (a : Application) : Application :=
  if a.listingId == lid then
    match rankOfId sorted a.id with
    | some p => { a with position := p }
    | none => a
  else a

/-- Shallow embedding of the SQL `reorder_application_positions` restricted
to one listing: renumber all of the listing's applications to `1..N`
ordered by `(applied_at, created_at)`. -/
def reorder_application_positions (db : List Application) (lid : Nat) :
    List Application :=
  db.map (reorderUpdate (insertionSort tripleLe (keyedApps db lid)) lid)

/-- The per-row effect of `fix_application_positions`: pending rows of the
listing take the rank of their id, and the SQL `position != new_position`
guard skips rows already in place. -/
def fixUpdate (sorted : List (Nat × Nat × Nat)) (lid : Nat)
    (a : Application) : Application :=
  if a.listingId == lid && a.status == .pending then
    match rankOfId sorted a.id with
    | some p => if a.position == p then a else { a with position := p }
    | none => a
  else a

/-- Shallow embedding of the SQL `fix_application_positions` restricted to
one listing: renumber the listing's pending applications to `1..N` ordered
by `(applied_at, created_at)`. -/
def fix_application_positions (db : List Application) (lid : Nat) :
    List Application :=
  db.map (fixUpdate (insertionSort tripleLe (keyedPendingApps db lid)) lid)

/-! ### Concurrent submissions

After the migration that drops the `applications_listing_id_position_key`
constraint, the insert path of `submitApplicationWithDocuments` runs with
no uniqueness check at all: it reads the listing's maximum position in one
query and inserts `max + 1` in a later one.  The transition system below
is the two-phase interleaving semantics of that path: `start` performs the
snapshot reads (the existing-application check and the max-position read)
and records the decision in flight; `commit` performs the insert, which
now always succeeds. -/

/-- A submission whose snapshot phase has run but whose insert has not. -/
structure InFlight where
  lid : Nat
  uid : Nat
  pos : Nat
  newId : Nat
  now : Nat
  msg : String
  docs : List SharedDoc
deriving DecidableEq, Repr

/-- The row such a submission inserts at commit. -/
def mkInsertApp (f : InFlight) : Application :=
  { id := f.newId, listingId := f.lid, userId := f.uid, position := f.pos,
    status := .pending, notes := some f.msg, sharedDocuments := f.docs,
    appliedAt := f.now, createdAt := f.now, reviewedAt := none, reviewNotes := none }

/-- State of the store together with the submissions in flight. -/
structure SysState where
  db : List Application
  inflight : List InFlight
deriving DecidableEq, Repr

/-- One interleaving step of concurrently running
`submitApplicationWithDocuments` insert paths. -/
inductive SubmitStep : SysState → SysState → Prop
  | start (s : SysState) (lid uid newId now : Nat) (msg : String)
      (docs : List SharedDoc)
      (hmsg : isBlank msg = false)
      (hnone : pairRows s.db lid uid = []) :
      SubmitStep s
        ⟨s.db,
         s.inflight ++ [⟨lid, uid, maxPosition s.db lid + 1, newId, now, msg, docs⟩]⟩
  | commit (s : SysState) (l₁ l₂ : List InFlight) (f : InFlight)
      (h : s.inflight = l₁ ++ f :: l₂) :
      SubmitStep s ⟨s.db ++ [mkInsertApp f], l₁ ++ l₂⟩

/-- The states reachable from the empty store by interleaved submissions. -/
inductive ReachableSubmit : SysState → Prop
  | init : ReachableSubmit ⟨[], []⟩
  | step {s t : SysState} : ReachableSubmit s → SubmitStep s t → ReachableSubmit t

/-! ### Concrete fixtures used by witnesses and counterexamples -/

/-- Fixture: a pending application of listing 1 by user 10. -/
def examplePending : Application :=
  { id := 1, listingId := 1, userId := 10, position := 1, status := .pending,
    notes := some "hi", sharedDocuments := [], appliedAt := 0, createdAt := 0,
    reviewedAt := none, reviewNotes := none }

/-- Fixture: a withdrawn application of listing 1 by user 10 holding position 1. -/
def withdrawnSeed : Application :=
  { id := 1, listingId := 1, userId := 10, position := 1, status := .withdrawn,
    notes := none, sharedDocuments := [], appliedAt := 0, createdAt := 0,
    reviewedAt := none, reviewNotes := none }

/-- Fixture: a pending application of listing 1 by user 20 holding position 1
(the state `fix_application_positions` leaves after the rival of a withdrawn
position-1 row is renumbered to 1). -/
def pendingRival : Application :=
  { id := 2, listingId := 1, userId := 20, position := 1, status := .pending,
    notes := some "b", sharedDocuments := [], appliedAt := 1, createdAt := 1,
    reviewedAt := none, reviewNotes := none }

/-- Fixture: first of two rows of the same (listing, applicant) pair. -/
def pairRowFirst : Application :=
  { id := 3, listingId := 1, userId := 10, position := 1, status := .withdrawn,
    notes := none, sharedDocuments := [], appliedAt := 0, createdAt := 0,
    reviewedAt := none, reviewNotes := none }

/-- Fixture: second of two rows of the same (listing, applicant) pair. -/
def pairRowSecond : Application :=
  { id := 4, listingId := 1, userId := 10, position := 2, status := .pending,
    notes := none, sharedDocuments := [], appliedAt := 1, createdAt := 1,
    reviewedAt := none, reviewNotes := none }

/-- Fixture: the row committed by the first of two racing submissions. -/
def stormRowA : Application :=
  mkInsertApp ⟨1, 10, 1, 101, 3, "a", []⟩

/-- Fixture: the row committed by the second of two racing submissions. -/
def stormRowB : Application :=
  mkInsertApp ⟨1, 20, 1, 102, 4, "b", []⟩

/-- Adversarial interference schedule: before attempt `k` commits, a rival
transaction lands a row of listing 1 at exactly the position `k` that the
attempt proposes. -/
def sabotage : Nat → List Application :=
  fun k => [mkPendingApp (1000 + k) 1 999 k none 0]

/-- Fixture: two applications of listing 1 submitted out of position order. -/
def reconcileSeedLate : Application :=
  { id := 5, listingId := 1, userId := 30, position := 7, status := .pending,
    notes := none, sharedDocuments := [], appliedAt := 9, createdAt := 2,
    reviewedAt := none, reviewNotes := none }

/-- Fixture: companion of `reconcileSeedLate` with the earlier applied-at time. -/
def reconcileSeedEarly : Application :=
  { id := 6, listingId := 1, userId := 40, position := 3, status := .pending,
    notes := none, sharedDocuments := [], appliedAt := 4, createdAt := 5,
    reviewedAt := none, reviewNotes := none }

/-- Fixture: the listing table entry owned by user 10. -/
def exampleListing : Listing :=
  { id := 1, userId := 10 }

end Golet

namespace Golet

/-! ## Theorems -/

/-- C3: submitting while an application of the pair is already `pending`
fails with the duplicate-pending error, mutates nothing, and leaves the
pair's single record in place. -/
theorem submit_duplicate_pending_spec (db : List Application) (lid uid : Nat)
    (msg : String) (docs : List SharedDoc) (now newId : Nat) (a : Application)
    (h1 : pairRows db lid uid = [a]) (h2 : a.status = .pending)
    (h3 : isBlank msg = false) :
    submitApplicationWithDocuments db lid msg docs (some uid) now newId
        = (.error .duplicatePending, db) ∧
    pairRows (submitApplicationWithDocuments db lid msg docs (some uid) now newId).2 lid uid
        = [a] := by
  have hmain : submitApplicationWithDocuments db lid msg docs (some uid) now newId
      = (.error .duplicatePending, db) := by
    simp [submitApplicationWithDocuments, h3, h1, h2]
  exact ⟨hmain, by rw [hmain]; exact h1⟩

/-- Witness for C3 at a concrete store. -/
theorem submit_duplicate_pending_witness :
    submitApplicationWithDocuments [examplePending] 1 "again" [] (some 10) 5 9
        = (.error .duplicatePending, [examplePending]) ∧
    pairRows (submitApplicationWithDocuments [examplePending] 1 "again" [] (some 10) 5 9).2 1 10
        = [examplePending] :=
  submit_duplicate_pending_spec [examplePending] 1 10 "again" [] 5 9 examplePending
    (by decide) (by decide) (by decide)

/-- C4 counterexample: reactivating the withdrawn position-1 application
while another pending application holds position 1 keeps the old stored
position instead of allocating a fresh one, so the reactivated record and
the rival end up both `pending` at position 1. -/
theorem reactivation_reuses_old_position :
    (submitApplicationWithDocuments [withdrawnSeed, pendingRival] 1 "back" [] (some 10) 5 9).1
        = .ok ⟨1, 0, true⟩ ∧
    ((submitApplicationWithDocuments [withdrawnSeed, pendingRival] 1 "back" [] (some 10) 5 9).2.map
        (fun a => a.position)) = [1, 1] ∧
    hasDuplicatePendingPositions
        (submitApplicationWithDocuments [withdrawnSeed, pendingRival] 1 "back" [] (some 10) 5 9).2 1
        = true := by
  decide

/-- C4 amended: reactivating a terminal (withdrawn or rejected) application
sets it `pending`, stamps `appliedAt`, replaces notes and shared documents,
and keeps the record's stored position unchanged (no allocator call). -/
theorem submit_reactivation_spec (db : List Application) (lid uid : Nat)
    (msg : String) (docs : List SharedDoc) (now newId : Nat) (a : Application)
    (h1 : pairRows db lid uid = [a])
    (h2 : a.status = .withdrawn ∨ a.status = .rejected)
    (h3 : isBlank msg = false) :
    submitApplicationWithDocuments db lid msg docs (some uid) now newId
        = (.ok ⟨a.id, docs.length, true⟩,
           db.map (fun b =>
             if b.id == a.id then
               { b with status := .pending, notes := some msg,
                        sharedDocuments := docs, appliedAt := now }
             else b)) := by
  have hne : (a.status == Status.pending) = false := by
    rcases h2 with h | h <;> simp [h]
  simp [submitApplicationWithDocuments, h3, h1, hne]

/-- Witness for the amended C4 at a concrete store. -/
theorem submit_reactivation_witness :
    submitApplicationWithDocuments [withdrawnSeed] 1 "back" [] (some 10) 5 9
        = (.ok ⟨1, 0, true⟩,
           [withdrawnSeed].map (fun b =>
             if b.id == withdrawnSeed.id then
               { b with status := .pending, notes := some "back",
                        sharedDocuments := [], appliedAt := 5 }
             else b)) :=
  submit_reactivation_spec [withdrawnSeed] 1 10 "back" [] 5 9 withdrawnSeed
    (by decide) (Or.inl rfl) (by decide)

/-- C9 counterexample: with no existing application and an authenticated
user, a submission whose message is empty is rejected with the
message-required error and creates nothing, where the claim expects a
created pending application. -/
theorem submit_empty_message_rejected :
    submitApplicationWithDocuments [] 1 "" [] (some 10) 0 5
        = (.error .messageRequired, []) := by
  decide

/-- C9 amended: the submission operation requires a non-blank message; a
submission whose notes are empty or whitespace-only fails with the
message-required error before any read or write. -/
theorem submit_blank_message_spec (db : List Application) (lid : Nat)
    (msg : String) (docs : List SharedDoc) (user : Option Nat) (now newId : Nat)
    (h : isBlank msg = true) :
    submitApplicationWithDocuments db lid msg docs user now newId
        = (.error .messageRequired, db) := by
  simp [submitApplicationWithDocuments, h]

/-- Witness for the amended C9 at a concrete store. -/
theorem submit_blank_message_witness :
    submitApplicationWithDocuments [examplePending] 2 " " [] none 0 7
        = (.error .messageRequired, [examplePending]) :=
  submit_blank_message_spec [examplePending] 2 " " [] none 0 7 (by decide)

/-- C10 counterexample: when the pair holds two rows (possible since the
(listing, user) uniqueness constraint was dropped), rows exist yet
`checkUserApplication` reports `hasApplied = false` with a null
application, because `.maybeSingle()` errors on multiple rows. -/
theorem checkUserApplication_misses_existing_rows :
    pairRows [pairRowFirst, pairRowSecond] 1 10 ≠ [] ∧
    checkUserApplication [pairRowFirst, pairRowSecond] 1 (some 10) = ⟨false, none⟩ := by
  decide

/-- C10 amended: for an authenticated user `checkUserApplication` never
throws; it reports `hasApplied = true` exactly when the (listing, user)
pair holds exactly one row — of any status — returning that row, and in
every other case (no row, or a multi-row query error) it returns
`hasApplied = false` with a null application. -/
theorem checkUserApplication_spec (db : List Application) (lid uid : Nat) :
    ((checkUserApplication db lid (some uid)).hasApplied = true
        ↔ (pairRows db lid uid).length = 1) ∧
    ((pairRows db lid uid).length ≠ 1 →
        checkUserApplication db lid (some uid) = ⟨false, none⟩) ∧
    (∀ a, (checkUserApplication db lid (some uid)).application = some a →
        a ∈ db ∧ a.listingId = lid ∧ a.userId = uid) := by
  cases hp : pairRows db lid uid with
  | nil => simp [checkUserApplication, hp]
  | cons a t =>
    cases t with
    | nil =>
      have ha : a ∈ db.filter (fun b => b.listingId == lid && b.userId == uid) := by
        have : a ∈ pairRows db lid uid := by rw [hp]; exact List.mem_singleton_self a
        simpa [pairRows] using this
      obtain ⟨hadb, hcond⟩ := List.mem_filter.mp ha
      simp only [Bool.and_eq_true, beq_iff_eq] at hcond
      refine ⟨by simp [checkUserApplication, hp], by simp [checkUserApplication, hp], ?_⟩
      intro b hb
      have hba : b = a := by
        simpa [checkUserApplication, hp] using hb.symm
      exact hba ▸ ⟨hadb, hcond.1, hcond.2⟩
    | cons b t' => simp [checkUserApplication, hp]

/-- Witness for the amended C10 at a concrete store, with every inner
hypothesis discharged. -/
theorem checkUserApplication_spec_witness :
    (checkUserApplication [examplePending] 1 (some 10)).hasApplied = true ∧
    checkUserApplication [pairRowFirst] 2 (some 10) = ⟨false, none⟩ ∧
    (examplePending ∈ [examplePending] ∧ examplePending.listingId = 1 ∧
      examplePending.userId = 10) :=
  ⟨(checkUserApplication_spec [examplePending] 1 10).1.mpr (by decide),
   (checkUserApplication_spec [pairRowFirst] 2 10).2.1 (by decide),
   (checkUserApplication_spec [examplePending] 1 10).2.2 examplePending (by decide)⟩

/-- Helper: mapping a row-updater that either leaves a row unchanged or
gives it a non-pending status cannot produce new pending rows. -/
theorem mem_of_map_no_new_pending {db : List Application}
    {g : Application → Application}
    (hg : ∀ b, g b = b ∨ (g b).status ≠ Status.pending) {a : Application}
    (hmem : a ∈ db.map g) (hpend : a.status = Status.pending) : a ∈ db := by
  obtain ⟨b, hb, hba⟩ := List.mem_map.mp hmem
  rcases hg b with h | h
  · rw [h] at hba
    exact hba ▸ hb
  · exact absurd (hba.symm ▸ hpend) h

/-- Helper: the modelled RPC only ever writes the non-pending status it is
given, so any row that is pending after the call was already a row of the
table before it. -/
theorem update_application_status_pending_mem (db : List Application)
    (listings : List Listing) (actor appId : Nat) (newStatus : String)
    (reviewNotes : Option String) (now : Nat) (a : Application)
    (hmem : a ∈ (update_application_status db listings actor appId newStatus reviewNotes now).2)
    (hpend : a.status = .pending) : a ∈ db := by
  unfold update_application_status at hmem
  split at hmem
  · exact hmem
  · split at hmem
    · exact hmem
    · split at hmem
      · exact hmem
      · split at hmem
        · split at hmem
          · exact hmem
          · refine mem_of_map_no_new_pending ?_ hmem hpend
            intro b
            by_cases hid : (b.id == appId) = true
            · right
              simp only [hid, if_true]
              split <;> simp
            · left
              rw [if_neg hid]
        · split at hmem
          · split at hmem
            · exact hmem
            · refine mem_of_map_no_new_pending ?_ hmem hpend
              intro b
              by_cases hid : (b.id == appId) = true
              · right
                simp only [hid, if_true]
                simp
              · left
                rw [if_neg hid]
          · exact hmem

/-- C7: the public transition endpoint accepts only `accepted`, `rejected`
or `withdrawn` and rejects any other target before any write; consequently
no row can become `pending` through it — every row pending afterwards was
already stored before the call. -/
theorem updateApplicationStatus_spec :
    (∀ (db : List Application) (listings : List Listing) (appId : Nat)
        (status : String) (notes : Option String) (user : Option Nat) (now : Nat),
        status ∉ allowedStatuses →
        updateApplicationStatus db listings appId status notes user now
            = (.error .invalidStatus, db)) ∧
    (∀ (db : List Application) (listings : List Listing) (appId : Nat)
        (status : String) (notes : Option String) (user : Option Nat) (now : Nat)
        (a : Application),
        a ∈ (updateApplicationStatus db listings appId status notes user now).2 →
        a.status = .pending → a ∈ db) := by
  constructor
  · intro db listings appId status notes user now h
    have hc : allowedStatuses.contains status = false := by
      by_contra hne
      rw [Bool.not_eq_false] at hne
      exact h (List.mem_of_elem_eq_true hne)
    unfold updateApplicationStatus
    rw [hc]
    simp
  · intro db listings appId status notes user now a hmem hpend
    unfold updateApplicationStatus at hmem
    split at hmem
    · exact hmem
    · split at hmem
      · exact hmem
      · exact update_application_status_pending_mem _ _ _ _ _ _ _ _ hmem hpend

/-- Witness for C7: the target `pending` is rejected with no write, and a
row pending after a rejected call was present beforehand. -/
theorem updateApplicationStatus_spec_witness :
    updateApplicationStatus [examplePending] [exampleListing] 1 "pending" none (some 10) 6
        = (.error .invalidStatus, [examplePending]) ∧
    examplePending ∈ [examplePending] :=
  ⟨updateApplicationStatus_spec.1 [examplePending] [exampleListing] 1 "pending" none (some 10) 6
      (by decide),
   updateApplicationStatus_spec.2 [examplePending] [exampleListing] 1 "pending" none (some 10) 6
      examplePending (by decide) (by decide)⟩

/-- C1: in the interleaving semantics of the unconstrained insert path,
the state in which two racing submissions to the empty listing 1 have both
committed position 1 is reachable, and it carries two `pending`
applications of listing 1 with the same position. -/
theorem storm_duplicate_positions_reachable :
    ReachableSubmit ⟨[stormRowA, stormRowB], []⟩ ∧
    hasDuplicatePendingPositions [stormRowA, stormRowB] 1 = true := by
  constructor
  · have h0 : ReachableSubmit ⟨[], []⟩ := .init
    have h1 : ReachableSubmit ⟨[], [⟨1, 10, 1, 101, 3, "a", []⟩]⟩ :=
      .step h0 (SubmitStep.start ⟨[], []⟩ 1 10 101 3 "a" [] (by decide) (by decide))
    have h2 : ReachableSubmit ⟨[], [⟨1, 10, 1, 101, 3, "a", []⟩, ⟨1, 20, 1, 102, 4, "b", []⟩]⟩ :=
      .step h1 (SubmitStep.start _ 1 20 102 4 "b" [] (by decide) (by decide))
    have h3 : ReachableSubmit ⟨[stormRowA], [⟨1, 20, 1, 102, 4, "b", []⟩]⟩ :=
      .step h2 (SubmitStep.commit _ [] [⟨1, 20, 1, 102, 4, "b", []⟩] ⟨1, 10, 1, 101, 3, "a", []⟩ rfl)
    exact .step h3 (SubmitStep.commit _ [] [] ⟨1, 20, 1, 102, 4, "b", []⟩ rfl)
  · decide

/-- Helper: inserting permutes to consing. -/
theorem perm_orderedInsert {α : Type} (le : α → α → Bool) (a : α) :
    ∀ l : List α, (orderedInsert le a l).Perm (a :: l) := by
  intro l
  induction l with
  | nil => exact List.Perm.refl _
  | cons b t ih =>
    unfold orderedInsert
    split
    · exact List.Perm.refl _
    · exact (ih.cons b).trans (List.Perm.swap a b t)

/-- Helper: insertion sort permutes its input. -/
theorem perm_insertionSort {α : Type} (le : α → α → Bool) :
    ∀ l : List α, (insertionSort le l).Perm l := by
  intro l
  induction l with
  | nil => exact List.Perm.refl _
  | cons a t ih =>
    unfold insertionSort
    exact (perm_orderedInsert le a _).trans (ih.cons a)

/-- Helper: inserting into a sorted list keeps it sorted, for a transitive
and total comparator. -/
theorem sorted_orderedInsert {α : Type} (le : α → α → Bool)
    (htrans : ∀ x y z, le x y = true → le y z = true → le x z = true)
    (htotal : ∀ x y, (le x y || le y x) = true) (a : α) :
    ∀ l : List α, List.Pairwise (fun x y => le x y = true) l →
      List.Pairwise (fun x y => le x y = true) (orderedInsert le a l) := by
  intro l
  induction l with
  | nil => intro _; exact List.pairwise_singleton _ _
  | cons b t ih =>
    intro hp
    obtain ⟨hb, ht⟩ := List.pairwise_cons.mp hp
    unfold orderedInsert
    split
    · rename_i hab
      refine List.pairwise_cons.mpr ⟨?_, hp⟩
      intro x hx
      rcases List.mem_cons.mp hx with rfl | hx
      · exact hab
      · exact htrans a b x hab (hb x hx)
    · rename_i hab
      have hba : le b a = true := by
        have h2 := htotal a b
        rw [Bool.or_eq_true] at h2
        rcases h2 with h2 | h2
        · exact absurd h2 hab
        · exact h2
      refine List.pairwise_cons.mpr ⟨?_, ih ht⟩
      intro x hx
      have hx2 : x ∈ a :: t := (perm_orderedInsert le a t).mem_iff.mp hx
      rcases List.mem_cons.mp hx2 with rfl | hx2
      · exact hba
      · exact hb x hx2

/-- Helper: insertion sort sorts, for a transitive and total comparator. -/
theorem sorted_insertionSort {α : Type} (le : α → α → Bool)
    (htrans : ∀ x y z, le x y = true → le y z = true → le x z = true)
    (htotal : ∀ x y, (le x y || le y x) = true) :
    ∀ l : List α, List.Pairwise (fun x y => le x y = true) (insertionSort le l) := by
  intro l
  induction l with
  | nil => exact List.Pairwise.nil
  | cons a t ih =>
    unfold insertionSort
    exact sorted_orderedInsert le htrans htotal a _ ih

/-- Helper: the `position` comparator is transitive. -/
theorem posLe_trans : ∀ a b c : Application,
    posLe a b = true → posLe b c = true → posLe a c = true := by
  intro a b c hab hbc
  simp only [posLe, decide_eq_true_eq] at hab hbc ⊢
  omega

/-- Helper: the `position` comparator is total. -/
theorem posLe_total : ∀ a b : Application, (posLe a b || posLe b a) = true := by
  intro a b
  simp only [posLe, Bool.or_eq_true, decide_eq_true_eq]
  omega

/-- C8: with an authenticated owner of an existing listing, the
listing-applications query leaves the table unchanged and returns exactly
the listing's applications (a permutation of the filtered rows) sorted by
`position` ascending. -/
theorem getListingApplications_spec (db : List Application)
    (listings : List Listing) (lid uid : Nat) (l : Listing)
    (h1 : listings.find? (fun x => x.id == lid) = some l)
    (h2 : l.userId = uid) :
    getListingApplications db listings lid (some uid)
        = (.ok (insertionSort posLe (appsOf db lid)), db) ∧
    (insertionSort posLe (appsOf db lid)).Perm (appsOf db lid) ∧
    List.Pairwise (fun a b => a.position ≤ b.position)
        (insertionSort posLe (appsOf db lid)) := by
  refine ⟨?_, perm_insertionSort _ _, ?_⟩
  · unfold getListingApplications
    rw [h1]
    have hown : (l.userId != uid) = false := by simp [h2]
    simp [hown]
  · have hs := sorted_insertionSort posLe posLe_trans posLe_total (appsOf db lid)
    exact hs.imp (fun h => by simpa [posLe] using h)

/-- Witness for C8 at a concrete store. -/
theorem getListingApplications_spec_witness :
    getListingApplications [reconcileSeedLate, reconcileSeedEarly] [exampleListing] 1 (some 10)
        = (.ok (insertionSort posLe (appsOf [reconcileSeedLate, reconcileSeedEarly] 1)),
           [reconcileSeedLate, reconcileSeedEarly]) ∧
    (insertionSort posLe (appsOf [reconcileSeedLate, reconcileSeedEarly] 1)).Perm
        (appsOf [reconcileSeedLate, reconcileSeedEarly] 1) ∧
    List.Pairwise (fun a b => a.position ≤ b.position)
        (insertionSort posLe (appsOf [reconcileSeedLate, reconcileSeedEarly] 1)) :=
  getListingApplications_spec [reconcileSeedLate, reconcileSeedEarly] [exampleListing] 1 10
    exampleListing (by decide) (by decide)

/-- Helper: every member of a list of naturals is bounded by its max fold. -/
theorem le_foldr_max (l : List Nat) : ∀ x ∈ l, x ≤ l.foldr max 0 := by
  induction l with
  | nil => simp
  | cons y t ih =>
    intro x hx
    rcases List.mem_cons.mp hx with rfl | hx
    · exact Nat.le_max_left _ _
    · exact le_trans (ih x hx) (Nat.le_max_right _ _)

/-- Helper: positions of a listing's rows never exceed `maxPosition`. -/
theorem position_le_maxPosition {db : List Application} {lid : Nat}
    {a : Application} (h : a ∈ appsOf db lid) :
    a.position ≤ maxPosition db lid :=
  le_foldr_max _ _ (List.mem_map_of_mem _ h)

/-- Helper: position `max + 1` is never already taken. -/
theorem positionTaken_succ_max (db : List Application) (lid : Nat) :
    positionTaken db lid (maxPosition db lid + 1) = false := by
  unfold positionTaken
  rw [List.any_eq_false]
  intro a ha
  have := position_le_maxPosition ha
  simp only [beq_iff_eq]
  omega

/-- Helper: the SQL `get_next_application_position` always returns
`max + 1`: its defensive while-loop exits at once because `max + 1`
exceeds every stored position. -/
theorem get_next_application_position_eq (db : List Application) (lid : Nat) :
    get_next_application_position db lid = maxPosition db lid + 1 := by
  unfold get_next_application_position
  unfold bumpPosition
  rw [positionTaken_succ_max]
  simp

/-- Helper: the allocator loop never counts more attempts than its fuel allows. -/
theorem allocLoop_attempts_le (interf : Nat → List Application) (lid uid : Nat)
    (notes : Option String) (newId now M : Nat) :
    ∀ (fuel k : Nat) (db : List Application),
      (allocLoop interf lid uid notes newId now M fuel k db).attempts ≤ k + fuel := by
  intro fuel
  induction fuel with
  | zero => intro k db; simp [allocLoop]
  | succ fuel ih =>
    intro k db
    simp only [allocLoop]
    by_cases hconf : positionTaken (db ++ interf (k + 1)) lid
        (get_next_application_position db lid) = true
    · rw [if_pos hconf]
      by_cases hstop : M ≤ k + 1
      · rw [if_pos hstop]
        show k + 1 ≤ k + (fuel + 1)
        omega
      · rw [if_neg hstop]
        have := ih (k + 1) (db ++ interf (k + 1))
        omega
    · rw [if_neg hconf]
      show k + 1 ≤ k + (fuel + 1)
      omega

/-- Helper: the attempt counter never moves backwards. -/
theorem allocLoop_attempts_ge (interf : Nat → List Application) (lid uid : Nat)
    (notes : Option String) (newId now M : Nat) :
    ∀ (fuel k : Nat) (db : List Application),
      k ≤ (allocLoop interf lid uid notes newId now M fuel k db).attempts := by
  intro fuel
  induction fuel with
  | zero => intro k db; simp [allocLoop]
  | succ fuel ih =>
    intro k db
    simp only [allocLoop]
    by_cases hconf : positionTaken (db ++ interf (k + 1)) lid
        (get_next_application_position db lid) = true
    · rw [if_pos hconf]
      by_cases hstop : M ≤ k + 1
      · rw [if_pos hstop]
        show k ≤ k + 1
        omega
      · rw [if_neg hstop]
        have := ih (k + 1) (db ++ interf (k + 1))
        omega
    · rw [if_neg hconf]
      show k ≤ k + 1
      omega

/-- Helper: when the loop gives up, it has spent exactly the attempt budget. -/
theorem allocLoop_exhausted_attempts (interf : Nat → List Application)
    (lid uid : Nat) (notes : Option String) (newId now M : Nat) :
    ∀ (fuel k : Nat) (db : List Application), k + fuel = M →
      (allocLoop interf lid uid notes newId now M fuel k db).res = .exhausted →
      (allocLoop interf lid uid notes newId now M fuel k db).attempts = M := by
  intro fuel
  induction fuel with
  | zero => intro k db hk _; simpa [allocLoop] using hk
  | succ fuel ih =>
    intro k db hk hres
    simp only [allocLoop] at hres ⊢
    by_cases hconf : positionTaken (db ++ interf (k + 1)) lid
        (get_next_application_position db lid) = true
    · rw [if_pos hconf] at hres ⊢
      by_cases hstop : M ≤ k + 1
      · rw [if_pos hstop]
        show k + 1 = M
        omega
      · rw [if_neg hstop] at hres ⊢
        exact ih (k + 1) (db ++ interf (k + 1)) (by omega) hres
    · rw [if_neg hconf] at hres
      exact absurd hres (by simp)

/-- Helper: when the loop gives up, the final table is the snapshot plus
the interference rows of the attempts made — the loop itself stored
nothing. -/
theorem allocLoop_exhausted_db (interf : Nat → List Application)
    (lid uid : Nat) (notes : Option String) (newId now M : Nat) :
    ∀ (fuel k : Nat) (db : List Application),
      (allocLoop interf lid uid notes newId now M fuel k db).res = .exhausted →
      (allocLoop interf lid uid notes newId now M fuel k db).db =
        db ++ interfCat interf k
          ((allocLoop interf lid uid notes newId now M fuel k db).attempts - k) := by
  intro fuel
  induction fuel with
  | zero => intro k db _; simp [allocLoop, interfCat]
  | succ fuel ih =>
    intro k db hres
    simp only [allocLoop] at hres ⊢
    by_cases hconf : positionTaken (db ++ interf (k + 1)) lid
        (get_next_application_position db lid) = true
    · rw [if_pos hconf] at hres ⊢
      by_cases hstop : M ≤ k + 1
      · rw [if_pos hstop]
        show db ++ interf (k + 1) = db ++ interfCat interf k (k + 1 - k)
        have h1 : k + 1 - k = 1 := by omega
        rw [h1]
        simp [interfCat]
      · rw [if_neg hstop] at hres ⊢
        have hih := ih (k + 1) (db ++ interf (k + 1)) hres
        have hge := allocLoop_attempts_ge interf lid uid notes newId now M fuel (k + 1)
          (db ++ interf (k + 1))
        rw [hih, List.append_assoc]
        congr 1
        have hsub : (allocLoop interf lid uid notes newId now M fuel (k + 1)
            (db ++ interf (k + 1))).attempts - k =
            ((allocLoop interf lid uid notes newId now M fuel (k + 1)
              (db ++ interf (k + 1))).attempts - (k + 1)) + 1 := by omega
        rw [hsub]
        rfl
    · rw [if_neg hconf] at hres
      exact absurd hres (by simp)

/-- Helper: a successful run commits exactly one new row, whose position
was free among the rows visible at commit time. -/
theorem allocLoop_ok (interf : Nat → List Application) (lid uid : Nat)
    (notes : Option String) (newId now M : Nat) :
    ∀ (fuel k : Nat) (db : List Application) (a : Application),
      (allocLoop interf lid uid notes newId now M fuel k db).res = .ok a →
      ∃ committed p,
        (allocLoop interf lid uid notes newId now M fuel k db).db = committed ++ [a] ∧
        a = mkPendingApp newId lid uid p notes now ∧
        positionTaken committed lid p = false := by
  intro fuel
  induction fuel with
  | zero => intro k db a hres; exact absurd hres (by simp [allocLoop])
  | succ fuel ih =>
    intro k db a hres
    simp only [allocLoop] at hres ⊢
    by_cases hconf : positionTaken (db ++ interf (k + 1)) lid
        (get_next_application_position db lid) = true
    · rw [if_pos hconf] at hres ⊢
      by_cases hstop : M ≤ k + 1
      · rw [if_pos hstop] at hres
        exact absurd hres (by simp)
      · rw [if_neg hstop] at hres ⊢
        exact ih (k + 1) (db ++ interf (k + 1)) a hres
    · rw [if_neg hconf] at hres ⊢
      have hres2 : AllocResult.ok (mkPendingApp newId lid uid
          (get_next_application_position db lid) notes now) = .ok a := hres
      injection hres2 with h
      subst h
      refine ⟨db ++ interf (k + 1), get_next_application_position db lid, rfl, rfl, ?_⟩
      rw [Bool.not_eq_true] at hconf
      exact hconf

/-- Helper: with no interference the allocator succeeds on its first
attempt, inserting exactly one pending row at `max + 1`. -/
theorem alloc_no_interference (lid uid : Nat) (notes : Option String)
    (newId now : Nat) (db : List Application) :
    add_application_to_queue (fun _ => []) lid uid notes newId now db =
      ⟨.ok (mkPendingApp newId lid uid (maxPosition db lid + 1) notes now),
       db ++ [mkPendingApp newId lid uid (maxPosition db lid + 1) notes now], 1⟩ := by
  unfold add_application_to_queue
  rw [show (20 : Nat) = 19 + 1 from rfl]
  simp only [allocLoop]
  rw [List.append_nil, get_next_application_position_eq, positionTaken_succ_max]
  simp

/-- Helper: whenever the allocator reports success, the committed row's
position is held by exactly one application of the listing in the final
table. -/
theorem alloc_ok_unique (interf : Nat → List Application) (lid uid : Nat)
    (notes : Option String) (newId now : Nat) (db : List Application)
    (a : Application)
    (hres : (add_application_to_queue interf lid uid notes newId now db).res = .ok a) :
    (appsOf (add_application_to_queue interf lid uid notes newId now db).db lid).countP
        (fun b => b.position == a.position) = 1 := by
  obtain ⟨committed, p, hdb, ha, hfree⟩ :=
    allocLoop_ok interf lid uid notes newId now 20 20 0 db a hres
  unfold add_application_to_queue
  rw [hdb]
  unfold appsOf
  rw [List.filter_append, List.countP_append]
  have hl : a.listingId = lid := by rw [ha]; rfl
  have hp : a.position = p := by rw [ha]; rfl
  have hfa : List.filter (fun x => x.listingId == lid) [a] = [a] := by simp [hl]
  rw [hfa]
  have hca : List.countP (fun b => b.position == a.position) [a] = 1 := by simp
  rw [hca]
  have hzero : List.countP (fun b => b.position == a.position)
      (List.filter (fun x => x.listingId == lid) committed) = 0 := by
    rw [List.countP_eq_zero]
    intro b hb
    unfold positionTaken at hfree
    rw [List.any_eq_false] at hfree
    have hbp := hfree b hb
    rw [hp]
    exact hbp
  rw [hzero]

/-- Helper: an exhausted allocator run spent exactly the 20-attempt budget
and left the table holding only the snapshot and interference rows. -/
theorem alloc_exhausted_top (interf : Nat → List Application) (lid uid : Nat)
    (notes : Option String) (newId now : Nat) (db : List Application)
    (h : (add_application_to_queue interf lid uid notes newId now db).res = .exhausted) :
    (add_application_to_queue interf lid uid notes newId now db).db
        = db ++ interfCat interf 0 20 ∧
    (add_application_to_queue interf lid uid notes newId now db).attempts = 20 := by
  unfold add_application_to_queue at h ⊢
  have hatt := allocLoop_exhausted_attempts interf lid uid notes newId now 20 20 0 db
    (by omega) h
  have hdb := allocLoop_exhausted_db interf lid uid notes newId now 20 20 0 db h
  rw [hatt] at hdb
  exact ⟨by simpa using hdb, hatt⟩

/-- C2: the retry allocator `add_application_to_queue` (i) proposes the
listing's current maximum position plus one — position 1 when the listing
has no applications — and, undisturbed, commits it on the first attempt;
(ii) any position it does commit is unique for the listing among the rows
visible at commit; (iii) when every attempt conflicts it fails hard after
exactly the 20-attempt budget, storing no row of its own; and (iv) it
never exceeds the attempt budget. -/
theorem add_application_to_queue_spec :
    (∀ (lid uid : Nat) (notes : Option String) (newId now : Nat)
        (db : List Application),
        add_application_to_queue (fun _ => []) lid uid notes newId now db =
          ⟨.ok (mkPendingApp newId lid uid (maxPosition db lid + 1) notes now),
           db ++ [mkPendingApp newId lid uid (maxPosition db lid + 1) notes now], 1⟩ ∧
        (appsOf db lid = [] → maxPosition db lid + 1 = 1)) ∧
    (∀ (interf : Nat → List Application) (lid uid : Nat) (notes : Option String)
        (newId now : Nat) (db : List Application) (a : Application),
        (add_application_to_queue interf lid uid notes newId now db).res = .ok a →
        (appsOf (add_application_to_queue interf lid uid notes newId now db).db lid).countP
            (fun b => b.position == a.position) = 1) ∧
    (∀ (interf : Nat → List Application) (lid uid : Nat) (notes : Option String)
        (newId now : Nat) (db : List Application),
        (add_application_to_queue interf lid uid notes newId now db).res = .exhausted →
        (add_application_to_queue interf lid uid notes newId now db).db
            = db ++ interfCat interf 0 20 ∧
        (add_application_to_queue interf lid uid notes newId now db).attempts = 20) ∧
    (∀ (interf : Nat → List Application) (lid uid : Nat) (notes : Option String)
        (newId now : Nat) (db : List Application),
        (add_application_to_queue interf lid uid notes newId now db).attempts ≤ 20) := by
  refine ⟨?_, ?_, ?_, ?_⟩
  · intro lid uid notes newId now db
    refine ⟨alloc_no_interference lid uid notes newId now db, ?_⟩
    intro h
    unfold maxPosition
    rw [h]
    rfl
  · intro interf lid uid notes newId now db a h
    exact alloc_ok_unique interf lid uid notes newId now db a h
  · intro interf lid uid notes newId now db h
    exact alloc_exhausted_top interf lid uid notes newId now db h
  · intro interf lid uid notes newId now db
    exact allocLoop_attempts_le interf lid uid notes newId now 20 20 0 db

/-- Witness for C2: the undisturbed first-attempt success at an empty
store, the empty-listing base position 1, success-position uniqueness, and
the hard 20-attempt exhaustion under the `sabotage` adversary. -/
theorem add_application_to_queue_spec_witness :
    add_application_to_queue (fun _ => []) 1 7 none 99 0 [] =
      ⟨.ok (mkPendingApp 99 1 7 (maxPosition [] 1 + 1) none 0),
       [] ++ [mkPendingApp 99 1 7 (maxPosition [] 1 + 1) none 0], 1⟩ ∧
    maxPosition [] 1 + 1 = 1 ∧
    (appsOf (add_application_to_queue (fun _ => []) 1 7 none 99 0 []).db 1).countP
        (fun b => b.position == (mkPendingApp 99 1 7 1 none 0).position) = 1 ∧
    (add_application_to_queue sabotage 1 7 none 99 0 []).db
        = [] ++ interfCat sabotage 0 20 ∧
    (add_application_to_queue sabotage 1 7 none 99 0 []).attempts = 20 :=
  ⟨(add_application_to_queue_spec.1 1 7 none 99 0 []).1,
   (add_application_to_queue_spec.1 1 7 none 99 0 []).2 rfl,
   add_application_to_queue_spec.2.1 (fun _ => []) 1 7 none 99 0 []
     (mkPendingApp 99 1 7 1 none 0) (by decide),
   (add_application_to_queue_spec.2.2.1 sabotage 1 7 none 99 0 [] (by decide)).1,
   (add_application_to_queue_spec.2.2.1 sabotage 1 7 none 99 0 [] (by decide)).2⟩

/-- Helper: the reorder row-updater changes only `position`, so the
`(id, applied_at, created_at)` triple survives it. -/
theorem reorderUpdate_keyTriple (sorted : List (Nat × Nat × Nat)) (lid : Nat)
    (a : Application) : keyTriple (reorderUpdate sorted lid a) = keyTriple a := by
  unfold reorderUpdate
  split
  · split <;> rfl
  · rfl

/-- Helper: the reorder row-updater preserves `listing_id`. -/
theorem reorderUpdate_listingId (sorted : List (Nat × Nat × Nat)) (lid : Nat)
    (a : Application) : (reorderUpdate sorted lid a).listingId = a.listingId := by
  unfold reorderUpdate
  split
  · split <;> rfl
  · rfl

/-- Helper: the reorder row-updater preserves `id`. -/
theorem reorderUpdate_id (sorted : List (Nat × Nat × Nat)) (lid : Nat)
    (a : Application) : (reorderUpdate sorted lid a).id = a.id := by
  unfold reorderUpdate
  split
  · split <;> rfl
  · rfl

/-- Helper: the reorder row-updater preserves the `(applied_at, created_at)` key. -/
theorem reorderUpdate_appKey (sorted : List (Nat × Nat × Nat)) (lid : Nat)
    (a : Application) : appKey (reorderUpdate sorted lid a) = appKey a := by
  unfold reorderUpdate
  split
  · split <;> rfl
  · rfl

/-- Helper: the fix row-updater preserves the key triple. -/
theorem fixUpdate_keyTriple (sorted : List (Nat × Nat × Nat)) (lid : Nat)
    (a : Application) : keyTriple (fixUpdate sorted lid a) = keyTriple a := by
  unfold fixUpdate
  split
  · split
    · split <;> rfl
    · rfl
  · rfl

/-- Helper: the fix row-updater preserves `listing_id`. -/
theorem fixUpdate_listingId (sorted : List (Nat × Nat × Nat)) (lid : Nat)
    (a : Application) : (fixUpdate sorted lid a).listingId = a.listingId := by
  unfold fixUpdate
  split
  · split
    · split <;> rfl
    · rfl
  · rfl

/-- Helper: the fix row-updater preserves `status`. -/
theorem fixUpdate_status (sorted : List (Nat × Nat × Nat)) (lid : Nat)
    (a : Application) : (fixUpdate sorted lid a).status = a.status := by
  unfold fixUpdate
  split
  · split
    · split <;> rfl
    · rfl
  · rfl

/-- Helper: filtering by listing commutes with a `listing_id`-preserving
row map. -/
theorem appsOf_map (db : List Application) (lid : Nat)
    (f : Application → Application) (hf : ∀ a, (f a).listingId = a.listingId) :
    appsOf (db.map f) lid = (appsOf db lid).map f := by
  unfold appsOf
  rw [List.filter_map]
  congr 1
  apply List.filter_congr
  intro a _
  simp [Function.comp, hf]

/-- Helper: the ranked-scope projection is invariant under a reorder pass. -/
theorem keyedApps_map_reorderUpdate (db : List Application) (lid : Nat)
    (sorted : List (Nat × Nat × Nat)) :
    keyedApps (db.map (reorderUpdate sorted lid)) lid = keyedApps db lid := by
  unfold keyedApps
  rw [appsOf_map db lid _ (fun a => reorderUpdate_listingId sorted lid a), List.map_map]
  apply List.map_congr_left
  intro a _
  exact reorderUpdate_keyTriple sorted lid a

/-- Helper: the pending ranked-scope projection is invariant under a fix pass. -/
theorem keyedPendingApps_map_fixUpdate (db : List Application) (lid : Nat)
    (sorted : List (Nat × Nat × Nat)) :
    keyedPendingApps (db.map (fixUpdate sorted lid)) lid = keyedPendingApps db lid := by
  unfold keyedPendingApps
  rw [appsOf_map db lid _ (fun a => fixUpdate_listingId sorted lid a), List.filter_map]
  have h1 : List.filter ((fun a => a.status == Status.pending) ∘ fixUpdate sorted lid)
      (appsOf db lid) = List.filter (fun a => a.status == Status.pending) (appsOf db lid) := by
    apply List.filter_congr
    intro a _
    simp [Function.comp, fixUpdate_status]
  rw [h1, List.map_map]
  apply List.map_congr_left
  intro a _
  exact fixUpdate_keyTriple sorted lid a

/-- Helper: applying the reorder row-updater twice is the same as once. -/
theorem reorderUpdate_idem (sorted : List (Nat × Nat × Nat)) (lid : Nat)
    (a : Application) :
    reorderUpdate sorted lid (reorderUpdate sorted lid a) = reorderUpdate sorted lid a := by
  unfold reorderUpdate
  cases hl : (a.listingId == lid) with
  | false => simp [hl]
  | true =>
    cases hr : rankOfId sorted a.id with
    | none => simp [hl, hr]
    | some p => simp [hl, hr]

/-- Helper: applying the fix row-updater twice is the same as once. -/
theorem fixUpdate_idem (sorted : List (Nat × Nat × Nat)) (lid : Nat)
    (a : Application) :
    fixUpdate sorted lid (fixUpdate sorted lid a) = fixUpdate sorted lid a := by
  unfold fixUpdate
  cases hl : (a.listingId == lid && a.status == Status.pending) with
  | false => simp [hl]
  | true =>
    cases hr : rankOfId sorted a.id with
    | none => simp [hl, hr]
    | some p =>
      cases hp : (a.position == p) with
      | true => simp [hl, hr, hp]
      | false => simp [hl, hr, hp]

/-- Helper: one idempotence pass for `reorder_application_positions`. -/
theorem reorder_application_positions_idem (db : List Application) (lid : Nat) :
    reorder_application_positions (reorder_application_positions db lid) lid
      = reorder_application_positions db lid := by
  unfold reorder_application_positions
  rw [keyedApps_map_reorderUpdate, List.map_map]
  apply List.map_congr_left
  intro a _
  exact reorderUpdate_idem _ _ a

/-- Helper: one idempotence pass for `fix_application_positions`. -/
theorem fix_application_positions_idem (db : List Application) (lid : Nat) :
    fix_application_positions (fix_application_positions db lid) lid
      = fix_application_positions db lid := by
  unfold fix_application_positions
  rw [keyedPendingApps_map_fixUpdate, List.map_map]
  apply List.map_congr_left
  intro a _
  exact fixUpdate_idem _ _ a

/-- C5: both reconciliation passes are idempotent — running either twice
in succession with no intervening writes yields the same final position
assignment as running it once. -/
theorem reconcile_idempotent :
    (∀ (db : List Application) (lid : Nat),
        reorder_application_positions (reorder_application_positions db lid) lid
          = reorder_application_positions db lid) ∧
    (∀ (db : List Application) (lid : Nat),
        fix_application_positions (fix_application_positions db lid) lid
          = fix_application_positions db lid) :=
  ⟨reorder_application_positions_idem, fix_application_positions_idem⟩

/-- Helper: the `(applied_at, created_at)` triple order is transitive. -/
theorem tripleLe_trans : ∀ x y z : Nat × Nat × Nat,
    tripleLe x y = true → tripleLe y z = true → tripleLe x z = true := by
  intro x y z hxy hyz
  simp only [tripleLe, pairLe, Bool.or_eq_true, Bool.and_eq_true,
    decide_eq_true_eq] at hxy hyz ⊢
  omega

/-- Helper: the `(applied_at, created_at)` triple order is total. -/
theorem tripleLe_total : ∀ x y : Nat × Nat × Nat,
    (tripleLe x y || tripleLe y x) = true := by
  intro x y
  simp only [tripleLe, pairLe, Bool.or_eq_true, Bool.and_eq_true,
    decide_eq_true_eq]
  omega

/-- Helper: the strict key order is irreflexive. -/
theorem pairLt_irrefl (x : Nat × Nat) : pairLt x x = false := by
  simp [pairLt]

/-- Helper: the strict key order contradicts the reverse non-strict order. -/
theorem pairLt_not_pairLe {x y : Nat × Nat}
    (h1 : pairLt x y = true) (h2 : pairLe y x = true) : False := by
  simp only [pairLt, pairLe, Bool.or_eq_true, Bool.and_eq_true,
    decide_eq_true_eq] at h1 h2
  omega

/-- Helper: in a list whose images under `f` are distinct, mapping every
element to the index of its own `f`-image enumerates `0 .. length - 1`. -/
theorem map_findIdx_self {α β : Type} [DecidableEq β] (f : α → β) :
    ∀ l : List α, (l.map f).Nodup →
      l.map (fun x => l.findIdx (fun y => f y == f x)) = List.range l.length := by
  intro l
  induction l with
  | nil => intro _; rfl
  | cons a t ih =>
    intro hnd
    rw [List.map_cons] at hnd
    have hna : f a ∉ t.map f := (List.nodup_cons.mp hnd).1
    have hnt : (t.map f).Nodup := (List.nodup_cons.mp hnd).2
    rw [List.map_cons]
    have hhead : (a :: t).findIdx (fun y => f y == f a) = 0 := by
      rw [List.findIdx_cons]
      simp
    have htail : t.map (fun x => (a :: t).findIdx (fun y => f y == f x))
        = t.map (fun x => t.findIdx (fun y => f y == f x) + 1) := by
      apply List.map_congr_left
      intro x hx
      rw [List.findIdx_cons]
      have hne : (f a == f x) = false := by
        rw [beq_eq_false_iff_ne]
        intro he
        exact hna (he ▸ List.mem_map_of_mem f hx)
      rw [hne]
      rfl
    rw [hhead, htail]
    have hstep : t.map (fun x => t.findIdx (fun y => f y == f x) + 1)
        = (t.map (fun x => t.findIdx (fun y => f y == f x))).map (fun i => i + 1) := by
      rw [List.map_map]
      rfl
    rw [hstep, ih hnt, List.length_cons, List.range_succ_eq_map]

/-- Helper: the rank of an id that occurs in the ranked scope is its sorted
index plus one. -/
theorem rankOfId_eq_of_mem {sorted : List (Nat × Nat × Nat)} {k : Nat}
    (h : ∃ x ∈ sorted, x.1 = k) :
    rankOfId sorted k = some (sorted.findIdx (fun y => y.1 == k) + 1) := by
  unfold rankOfId
  have hex : ∃ x ∈ sorted, (fun y => y.1 == k) x = true := by
    obtain ⟨x, hx, he⟩ := h
    exact ⟨x, hx, by simp [he]⟩
  have hl := List.findIdx_lt_length_of_exists hex
  rw [List.findIdx?_eq_some_iff_findIdx_eq.mpr ⟨hl, rfl⟩]
  rfl

/-- C6: with distinct row ids, one reconciliation pass overwrites the
positions of the listing's N applications with exactly the gapless
sequence `1..N`, and rows are ranked by `applied_at` with the
`created_at` tiebreak: a strictly earlier key receives a strictly smaller
position. -/
theorem reorder_renumbers_spec (db : List Application) (lid : Nat)
    (hids : ((appsOf db lid).map (fun a => a.id)).Nodup) :
    ((appsOf (reorder_application_positions db lid) lid).map (fun a => a.position)).Perm
        (List.range' 1 (appsOf db lid).length) ∧
    (∀ a ∈ appsOf (reorder_application_positions db lid) lid,
      ∀ b ∈ appsOf (reorder_application_positions db lid) lid,
      pairLt (appKey a) (appKey b) = true → a.position < b.position) := by
  set s : List (Nat × Nat × Nat) := insertionSort tripleLe (keyedApps db lid) with hsdef
  have hperm : s.Perm (keyedApps db lid) := by
    rw [hsdef]
    exact perm_insertionSort _ _
  have hsorted : List.Pairwise (fun x y => tripleLe x y = true) s := by
    rw [hsdef]
    exact sorted_insertionSort tripleLe tripleLe_trans tripleLe_total _
  have hkeyfst : (keyedApps db lid).map (fun x => x.1) = (appsOf db lid).map (fun a => a.id) := by
    unfold keyedApps
    rw [List.map_map]
    rfl
  have hnods : (s.map (fun x => x.1)).Nodup := by
    rw [(hperm.map (fun x => x.1)).nodup_iff, hkeyfst]
    exact hids
  have hlen : s.length = (appsOf db lid).length := by
    rw [hperm.length_eq]
    unfold keyedApps
    rw [List.length_map]
  have happs : appsOf (reorder_application_positions db lid) lid
      = (appsOf db lid).map (reorderUpdate s lid) := by
    unfold reorder_application_positions
    rw [← hsdef]
    exact appsOf_map db lid _ (fun a => reorderUpdate_listingId s lid a)
  have hmem_facts : ∀ a ∈ appsOf db lid,
      (reorderUpdate s lid a).position = s.findIdx (fun y => y.1 == a.id) + 1 ∧
      s.findIdx (fun y => y.1 == a.id) < s.length := by
    intro a ha
    have halid : (a.listingId == lid) = true := by
      have h2 : a ∈ db ∧ a.listingId = lid := by simpa [appsOf] using ha
      simp [h2.2]
    have hkmem : keyTriple a ∈ s := hperm.mem_iff.mpr (List.mem_map_of_mem keyTriple ha)
    have hex : ∃ x ∈ s, (fun y => y.1 == a.id) x = true :=
      ⟨keyTriple a, hkmem, by simp [keyTriple]⟩
    refine ⟨?_, List.findIdx_lt_length_of_exists hex⟩
    have hrank := @rankOfId_eq_of_mem s a.id ⟨keyTriple a, hkmem, rfl⟩
    simp [reorderUpdate, halid, hrank]
  have hgetfact : ∀ a ∈ appsOf db lid,
      ∀ h : s.findIdx (fun y => y.1 == a.id) < s.length,
      s[s.findIdx (fun y => y.1 == a.id)] = keyTriple a := by
    intro a ha h
    have hpa : ((s[s.findIdx (fun y => y.1 == a.id)]).1 == a.id) = true := by
      have h3 := @List.findIdx_getElem _ (fun y => y.1 == a.id) s h
      simpa using h3
    have hmemel : s[s.findIdx (fun y => y.1 == a.id)] ∈ keyedApps db lid :=
      hperm.mem_iff.mp (List.getElem_mem h)
    simp only [keyedApps] at hmemel
    obtain ⟨c, hc, hck⟩ := List.mem_map.mp hmemel
    have hcid : c.id = a.id := by
      have h2 : (keyTriple c).1 = a.id := by
        rw [hck]
        exact beq_iff_eq.mp hpa
      simpa [keyTriple] using h2
    have hceq : c = a := List.inj_on_of_nodup_map hids hc ha hcid
    rw [← hck, hceq]
  constructor
  · have hpos1 : (appsOf (reorder_application_positions db lid) lid).map (fun a => a.position)
        = (appsOf db lid).map (fun a => s.findIdx (fun y => y.1 == a.id) + 1) := by
      rw [happs, List.map_map]
      apply List.map_congr_left
      intro a ha
      exact (hmem_facts a ha).1
    have hpos2 : (appsOf db lid).map (fun a => s.findIdx (fun y => y.1 == a.id) + 1)
        = (keyedApps db lid).map (fun x => s.findIdx (fun y => y.1 == x.1) + 1) := by
      unfold keyedApps
      rw [List.map_map]
      rfl
    have hsmap : s.map (fun x => s.findIdx (fun y => y.1 == x.1) + 1)
        = List.range' 1 s.length := by
      have h1 : s.map (fun x => s.findIdx (fun y => y.1 == x.1)) = List.range s.length :=
        map_findIdx_self (fun t => t.1) s hnods
      have h2 : s.map (fun x => s.findIdx (fun y => y.1 == x.1) + 1)
          = (s.map (fun x => s.findIdx (fun y => y.1 == x.1))).map (fun i => i + 1) := by
        rw [List.map_map]
        rfl
      rw [h2, h1, List.range'_eq_map_range]
      apply List.map_congr_left
      intro i _
      omega
    rw [hpos1, hpos2, ← hlen, ← hsmap]
    exact hperm.symm.map _
  · intro a' ha' b' hb' hlt
    rw [happs] at ha' hb'
    obtain ⟨a0, ha0, rfl⟩ := List.mem_map.mp ha'
    obtain ⟨b0, hb0, rfl⟩ := List.mem_map.mp hb'
    rw [reorderUpdate_appKey, reorderUpdate_appKey] at hlt
    rw [(hmem_facts a0 ha0).1, (hmem_facts b0 hb0).1]
    have hia := (hmem_facts a0 ha0).2
    have hib := (hmem_facts b0 hb0).2
    have hga := hgetfact a0 ha0 hia
    have hgb := hgetfact b0 hb0 hib
    rcases Nat.lt_trichotomy (s.findIdx (fun y => y.1 == a0.id))
        (s.findIdx (fun y => y.1 == b0.id)) with h | h | h
    · omega
    · exfalso
      have hsome : s[s.findIdx (fun y => y.1 == a0.id)]?
          = s[s.findIdx (fun y => y.1 == b0.id)]? := by rw [h]
      rw [List.getElem?_eq_getElem hia, List.getElem?_eq_getElem hib] at hsome
      have heq : keyTriple a0 = keyTriple b0 := by
        rw [← hga, ← hgb]
        exact Option.some.inj hsome
      have hkey : appKey a0 = appKey b0 := congrArg (fun t => t.2) heq
      rw [hkey, pairLt_irrefl] at hlt
      exact Bool.false_ne_true hlt
    · exfalso
      have hle := (List.pairwise_iff_getElem.mp hsorted) _ _ hib hia h
      rw [hga, hgb] at hle
      exact pairLt_not_pairLe hlt hle

/-- Witness for C6 at a concrete two-application listing: positions after
the pass are a permutation of `[1, 2]`, and the earlier-keyed row received
the smaller position. -/
theorem reorder_renumbers_witness :
    ((appsOf (reorder_application_positions [reconcileSeedLate, reconcileSeedEarly] 1) 1).map
        (fun a => a.position)).Perm
      (List.range' 1 (appsOf [reconcileSeedLate, reconcileSeedEarly] 1).length) ∧
    ({ reconcileSeedEarly with position := 1 } : Application).position
        < ({ reconcileSeedLate with position := 2 } : Application).position :=
  ⟨(reorder_renumbers_spec [reconcileSeedLate, reconcileSeedEarly] 1 (by decide)).1,
   (reorder_renumbers_spec [reconcileSeedLate, reconcileSeedEarly] 1 (by decide)).2
     { reconcileSeedEarly with position := 1 } (by decide)
     { reconcileSeedLate with position := 2 } (by decide) (by decide)⟩

end Golet
